import Mathlib

/-!
Verification of the `lld-ood` example corpus.

Each section shallowly embeds one JavaScript source file:
object references are modelled by numeric identities, mutation by
explicit state passing, and thrown exceptions by `Except`.
-/

namespace ParkingGarage

/-! Embedding of `src/lld/javascript/parking-garage.js`. -/

inductive VehicleType where
  | CAR
  | MOTORCYCLE
  | TRUCK
deriving DecidableEq, Repr

/-- A vehicle object: `id` models the JavaScript object reference
(`===` on two `Vehicle` objects holds only for the same allocation),
the remaining fields are the constructor's fields. -/
structure Vehicle where
  id : Nat
  licensePlate : String
  type : VehicleType
deriving DecidableEq, Repr

def Vehicle.getType (v : Vehicle) : VehicleType := v.type

/-- `ParkingSpot`: `parkedVehicle` is `null` (`none`) until a vehicle parks. -/
structure ParkingSpot where
  spotNumber : Nat
  vehicleType : VehicleType
  parkedVehicle : Option Vehicle
deriving DecidableEq, Repr

def ParkingSpot.isAvailable (s : ParkingSpot) : Bool :=
  s.parkedVehicle.isNone

/-- `ParkingSpot.parkVehicle` throws unless the spot is free and the
vehicle's type matches the spot's type. -/
def ParkingSpot.parkVehicle (s : ParkingSpot) (v : Vehicle) : Except String ParkingSpot :=
  if s.isAvailable ∧ v.getType = s.vehicleType then
    .ok { s with parkedVehicle := some v }
  else
    .error "Invalid vehicle type or spot already occupied."

def ParkingSpot.unparkVehicle (s : ParkingSpot) : ParkingSpot :=
  { s with parkedVehicle := none }

def ParkingSpot.getParkedVehicle (s : ParkingSpot) : Option Vehicle :=
  s.parkedVehicle

def ParkingSpot.getVehicleType (s : ParkingSpot) : VehicleType :=
  s.vehicleType

structure Level where
  floor : Nat
  parkingSpots : List ParkingSpot
deriving DecidableEq, Repr

/-- Number of halvings needed to bring `q` below `2^53`; the fuel bounds the
recursion and is ample for every value these constructors produce. -/
def shLoop : Nat → Nat → Nat
  | 0, _ => 0
  | fuel + 1, q => if q < 2 ^ 53 then 0 else shLoop fuel (q / 2) + 1

/-- The 53-bit significand obtained by rounding `P / 2^sh` to the nearest
integer, ties to even — the rounding step of IEEE binary64. -/
def rnMantissa (P sh : Nat) : Nat :=
  if 2 ^ (sh - 1) < P % 2 ^ sh then P / 2 ^ sh + 1
  else if P % 2 ^ sh < 2 ^ (sh - 1) then P / 2 ^ sh
  else P / 2 ^ sh + P / 2 ^ sh % 2

/-- `⌊RN(P / 2^S)⌋`: the positive dyadic rational `P / 2^S` rounded to the
nearest IEEE binary64 value (53 significant bits, round half to even), then
floored.  Faithful whenever the value is a normal, finite double and
`P < 2^173`, which holds for every product `n * 0.1` and `n * 0.7` with `n`
in the safe-integer range `n < 2^53`. -/
def rnFloor (P S : Nat) : Nat :=
  if shLoop 120 P = 0 then P / 2 ^ S
  else rnMantissa P (shLoop 120 P) * 2 ^ shLoop 120 P / 2 ^ S

/-- The IEEE binary64 value of the literal `0.1` is `c01 / 2^55`. -/
def c01 : Nat := 3602879701896397

/-- The IEEE binary64 value of the literal `0.7` is `c07 / 2^53`. -/
def c07 : Nat := 6305039478318694

/-- `Math.floor(n * 0.1)` as JavaScript computes it for a safe integer `n`:
the exact product of the doubles `n` and `0.1` rounded to binary64, floored. -/
def mathFloorMul01 (n : Nat) : Nat := rnFloor (n * c01) 55

/-- `Math.floor(n * 0.7)` as JavaScript computes it for a safe integer `n`. -/
def mathFloorMul07 (n : Nat) : Nat := rnFloor (n * c07) 53

/-- The `Level(floor, numSpots)` constructor.  `Math.floor(numSpots * 0.1)`
and `Math.floor(numSpots * 0.7)` are embedded as the floors of the IEEE
binary64 products (`mathFloorMul01` / `mathFloorMul07`, bit-exact for safe
integers); the three `for` loops become three `List.range'` segments with
the same start indices and lengths. -/
def Level.new (floor numSpots : Nat) : Level :=
  let numBikes := mathFloorMul01 numSpots
  let numCars := mathFloorMul07 numSpots
  let numTrucks := numSpots - (numBikes + numCars)
  { floor := floor
    parkingSpots :=
      (List.range' 1 numBikes).map (fun i => ⟨i, VehicleType.MOTORCYCLE, none⟩) ++
      (List.range' (numBikes + 1) numCars).map (fun j => ⟨j, VehicleType.CAR, none⟩) ++
      (List.range' (numBikes + 1 + numCars) numTrucks).map (fun k => ⟨k, VehicleType.TRUCK, none⟩) }

/-- The scan of `Level.parkVehicle`: walk the spot list in order, and on
the first spot with `spot.isAvailable() && spot.getVehicleType() === vehicle.getType()`
delegate to `ParkingSpot.parkVehicle` (which may throw) and stop with `true`;
return `false` if the walk ends. -/
def Level.parkScan (v : Vehicle) : List ParkingSpot → Except String (Bool × List ParkingSpot)
  | [] => .ok (false, [])
  | spot :: rest =>
    if spot.isAvailable ∧ spot.getVehicleType = v.getType then do
      let updated ← spot.parkVehicle v
      .ok (true, updated :: rest)
    else do
      let (b, rest') ← Level.parkScan v rest
      .ok (b, spot :: rest')

def Level.parkVehicle (l : Level) (v : Vehicle) : Except String (Bool × Level) :=
  (Level.parkScan v l.parkingSpots).map fun p => (p.1, { l with parkingSpots := p.2 })

/-- The scan of `Level.unparkVehicle`: free the first spot with
`!spot.isAvailable() && spot.getParkedVehicle() === vehicle`. -/
def Level.unparkScan (v : Vehicle) : List ParkingSpot → Bool × List ParkingSpot
  | [] => (false, [])
  | spot :: rest =>
    if (¬ spot.isAvailable) ∧ spot.getParkedVehicle = some v then
      (true, spot.unparkVehicle :: rest)
    else
      let (b, rest') := Level.unparkScan v rest
      (b, spot :: rest')

def Level.unparkVehicle (l : Level) (v : Vehicle) : Bool × Level :=
  let p := Level.unparkScan v l.parkingSpots
  (p.1, { l with parkingSpots := p.2 })

structure ParkingLot where
  levels : List Level
deriving DecidableEq, Repr

def ParkingLot.addLevel (lot : ParkingLot) (l : Level) : ParkingLot :=
  { levels := lot.levels ++ [l] }

/-- The loop of `ParkingLot.parkVehicle`: try each level in order,
stopping with `true` at the first level that parks the vehicle. -/
def ParkingLot.parkLevels (v : Vehicle) : List Level → Except String (Bool × List Level)
  | [] => .ok (false, [])
  | l :: ls => do
    let (b, l') ← l.parkVehicle v
    if b then
      .ok (true, l' :: ls)
    else do
      let (b2, ls') ← ParkingLot.parkLevels v ls
      .ok (b2, l' :: ls')

def ParkingLot.parkVehicle (lot : ParkingLot) (v : Vehicle) : Except String (Bool × ParkingLot) :=
  (ParkingLot.parkLevels v lot.levels).map fun p => (p.1, ⟨p.2⟩)

def ParkingLot.unparkLevels (v : Vehicle) : List Level → Bool × List Level
  | [] => (false, [])
  | l :: ls =>
    let (b, l') := l.unparkVehicle v
    if b then
      (true, l' :: ls)
    else
      let (b2, ls') := ParkingLot.unparkLevels v ls
      (b2, l' :: ls')

def ParkingLot.unparkVehicle (lot : ParkingLot) (v : Vehicle) : Bool × ParkingLot :=
  let p := ParkingLot.unparkLevels v lot.levels
  (p.1, ⟨p.2⟩)

/-- All spots of the lot, level by level, in scan order. -/
def ParkingLot.spots (lot : ParkingLot) : List ParkingSpot :=
  (lot.levels.map Level.parkingSpots).flatten

/-- A free spot whose type matches the vehicle's declared type. -/
def freeMatch (v : Vehicle) (s : ParkingSpot) : Bool :=
  s.isAvailable && (s.getVehicleType == v.getType)

/-- A spot currently holding this exact vehicle reference. -/
def holds (v : Vehicle) (s : ParkingSpot) : Bool :=
  (!s.isAvailable) && (s.getParkedVehicle == some v)

/-- How many spots of the lot currently hold the vehicle. -/
def occCount (v : Vehicle) (lot : ParkingLot) : Nat :=
  lot.spots.countP (fun s => s.getParkedVehicle == some v)

/-- Spec-side allocator, written from the spec's words: assign the vehicle
to the first available spot (levels in order, spots in order within a level)
whose type matches the vehicle's declared type, returning `true`;
return `false` and change nothing when no matching free spot exists. -/
def specParkSpots (v : Vehicle) : List ParkingSpot → Bool × List ParkingSpot
  | [] => (false, [])
  | s :: rest =>
    if freeMatch v s then
      (true, { s with parkedVehicle := some v } :: rest)
    else
      let (b, rest') := specParkSpots v rest
      (b, s :: rest')

/-- Spec-side allocator over the levels of the lot. -/
def specParkLot (v : Vehicle) : List Level → Bool × List Level
  | [] => (false, [])
  | l :: ls =>
    let (b, spots') := specParkSpots v l.parkingSpots
    if b then
      (true, { l with parkingSpots := spots' } :: ls)
    else
      let (b2, ls') := specParkLot v ls
      (b2, l :: ls')

theorem freeMatch_iff (v : Vehicle) (s : ParkingSpot) :
    freeMatch v s = true ↔ (s.isAvailable ∧ s.getVehicleType = v.getType) := by
  simp [freeMatch, Bool.and_eq_true, beq_iff_eq]

theorem parkScan_eq_spec (v : Vehicle) (spots : List ParkingSpot) :
    Level.parkScan v spots = .ok (specParkSpots v spots) := by
  induction spots with
  | nil => rfl
  | cons s rest ih =>
    by_cases h : s.isAvailable ∧ s.getVehicleType = v.getType
    · have hf : freeMatch v s = true := (freeMatch_iff v s).mpr h
      have hpark : s.parkVehicle v = .ok { s with parkedVehicle := some v } := by
        unfold ParkingSpot.parkVehicle
        rw [if_pos ⟨h.1, h.2.symm⟩]
      simp [Level.parkScan, specParkSpots, h, hf, hpark, Bind.bind, Except.bind]
    · have hf : ¬ (freeMatch v s = true) := fun hc => h ((freeMatch_iff v s).mp hc)
      simp [Level.parkScan, specParkSpots, h, hf, ih, Bind.bind, Except.bind]

theorem specParkSpots_false (v : Vehicle) (spots : List ParkingSpot) :
    (specParkSpots v spots).1 = false → (specParkSpots v spots).2 = spots := by
  induction spots with
  | nil => intro; rfl
  | cons s rest ih =>
    by_cases h : freeMatch v s = true
    · simp [specParkSpots, h]
    · simp [specParkSpots, h]
      exact ih

theorem parkLevels_eq_spec (v : Vehicle) (levels : List Level) :
    ParkingLot.parkLevels v levels = .ok (specParkLot v levels) := by
  induction levels with
  | nil => rfl
  | cons l ls ih =>
    have hl : l.parkVehicle v =
        .ok ((specParkSpots v l.parkingSpots).1,
             { l with parkingSpots := (specParkSpots v l.parkingSpots).2 }) := by
      unfold Level.parkVehicle
      rw [parkScan_eq_spec]
      rfl
    by_cases hb : (specParkSpots v l.parkingSpots).1 = true
    · simp [ParkingLot.parkLevels, specParkLot, hl, hb, Bind.bind, Except.bind]
    · have hb' : (specParkSpots v l.parkingSpots).1 = false := by
        revert hb; cases (specParkSpots v l.parkingSpots).1 <;> simp
      simp [ParkingLot.parkLevels, specParkLot, hl, hb, ih, Bind.bind, Except.bind]
      rw [specParkSpots_false v l.parkingSpots hb']

theorem specParkSpots_true_iff (v : Vehicle) (spots : List ParkingSpot) :
    (specParkSpots v spots).1 = true ↔ ∃ s ∈ spots, freeMatch v s = true := by
  induction spots with
  | nil => simp [specParkSpots]
  | cons s rest ih =>
    by_cases h : freeMatch v s = true
    · simp [specParkSpots, h]
    · simp [specParkSpots, h, ih]

theorem specParkLot_true_iff (v : Vehicle) (levels : List Level) :
    (specParkLot v levels).1 = true ↔
      ∃ l ∈ levels, ∃ s ∈ l.parkingSpots, freeMatch v s = true := by
  induction levels with
  | nil => simp [specParkLot]
  | cons l ls ih =>
    by_cases hb : (specParkSpots v l.parkingSpots).1 = true
    · simp [specParkLot, hb]
      exact Or.inl ((specParkSpots_true_iff v l.parkingSpots).mp hb)
    · have := (specParkSpots_true_iff v l.parkingSpots).not.mp hb
      simp [specParkLot, hb, ih]
      intro s hs hf
      exact absurd ⟨s, hs, hf⟩ this

/-- C1: `ParkingLot.parkVehicle` scans levels in order and spots in order
within each level, parks the vehicle in the first available spot whose type
equals the vehicle's declared type and returns `true`; when no level has a
matching free spot it returns `false`.  Stated as a refinement: the code's
allocator equals the spec-side first-fit allocator `specParkLot`, and the
returned flag is `true` exactly when some level has a matching free spot. -/
theorem parkVehicle_firstFit (lot : ParkingLot) (v : Vehicle) :
    lot.parkVehicle v =
      .ok ((specParkLot v lot.levels).1, ⟨(specParkLot v lot.levels).2⟩) ∧
    ((specParkLot v lot.levels).1 = true ↔
      ∃ l ∈ lot.levels, ∃ s ∈ l.parkingSpots, freeMatch v s = true) := by
  constructor
  · unfold ParkingLot.parkVehicle
    rw [parkLevels_eq_spec]
    rfl
  · exact specParkLot_true_iff v lot.levels

theorem countP_range'_map_const (t mkT : VehicleType) (st cnt : Nat) :
    ((List.range' st cnt).map
        (fun i => (⟨i, mkT, none⟩ : ParkingSpot))).countP
      (fun s => s.vehicleType == t) = if mkT = t then cnt else 0 := by
  rw [List.countP_map]
  by_cases h : mkT = t
  · subst h
    rw [if_pos rfl]
    have hc : ((fun s : ParkingSpot => s.vehicleType == mkT) ∘
        fun i => (⟨i, mkT, none⟩ : ParkingSpot)) = fun _ => true := by
      funext i
      show (mkT == mkT) = true
      exact beq_self_eq_true mkT
    rw [hc, List.countP_true, List.length_range']
  · rw [if_neg h]
    have hc : ((fun s : ParkingSpot => s.vehicleType == t) ∘
        fun i => (⟨i, mkT, none⟩ : ParkingSpot)) = fun _ => false := by
      funext i
      show (mkT == t) = false
      exact beq_eq_false_iff_ne.mpr h
    rw [hc, List.countP_false]
    rfl

theorem shLoop_pos : ∀ fuel q : Nat, shLoop fuel q ≠ 0 →
    2 ^ (shLoop fuel q + 52) ≤ q := by
  intro fuel
  induction fuel with
  | zero =>
    intro q h
    exact absurd rfl h
  | succ f ih =>
    intro q h
    rw [shLoop] at h ⊢
    by_cases h53 : q < 2 ^ 53
    · rw [if_pos h53] at h
      exact absurd rfl h
    · rw [if_neg h53]
      by_cases hz : shLoop f (q / 2) = 0
      · rw [hz]
        simpa using Nat.le_of_not_lt h53
      · have hih := ih (q / 2) hz
        have h2 : 2 ^ (shLoop f (q / 2) + 52) * 2 ≤ q / 2 * 2 :=
          Nat.mul_le_mul_right 2 hih
        have harr : 2 ^ (shLoop f (q / 2) + 1 + 52) =
            2 ^ (shLoop f (q / 2) + 52) * 2 := by
          rw [show shLoop f (q / 2) + 1 + 52 = (shLoop f (q / 2) + 52) + 1 by omega,
            pow_succ]
        rw [harr]
        exact le_trans h2 (Nat.div_mul_le_self q 2)

theorem rnMantissa_le (P sh : Nat) : rnMantissa P sh ≤ P / 2 ^ sh + 1 := by
  unfold rnMantissa
  split
  · exact le_refl _
  · split
    · exact Nat.le_succ _
    · omega

theorem rnFloor_le (P S : Nat) : rnFloor P S ≤ (P + P / 2 ^ 52) / 2 ^ S := by
  unfold rnFloor
  split
  · exact Nat.div_le_div_right (Nat.le_add_right P _)
  · rename_i h
    have hm := rnMantissa_le P (shLoop 120 P)
    have hsh : 2 ^ shLoop 120 P ≤ P / 2 ^ 52 := by
      rw [Nat.le_div_iff_mul_le (by positivity)]
      calc 2 ^ shLoop 120 P * 2 ^ 52
          = 2 ^ (shLoop 120 P + 52) := (pow_add 2 _ 52).symm
        _ ≤ P := shLoop_pos 120 P h
    refine Nat.div_le_div_right ?_
    calc rnMantissa P (shLoop 120 P) * 2 ^ shLoop 120 P
        ≤ (P / 2 ^ shLoop 120 P + 1) * 2 ^ shLoop 120 P :=
          Nat.mul_le_mul_right _ hm
      _ = P / 2 ^ shLoop 120 P * 2 ^ shLoop 120 P + 2 ^ shLoop 120 P := by
          ring
      _ ≤ P + P / 2 ^ 52 :=
          Nat.add_le_add (Nat.div_mul_le_self P _) hsh

theorem bikes_cars_le (n : Nat) : mathFloorMul01 n + mathFloorMul07 n ≤ n := by
  have h1 := rnFloor_le (n * c01) 55
  have h2 := rnFloor_le (n * c07) 53
  unfold mathFloorMul01 mathFloorMul07 c01 c07 at *
  have e52 : (2 : Nat) ^ 52 = 4503599627370496 := by norm_num
  have e53 : (2 : Nat) ^ 53 = 9007199254740992 := by norm_num
  have e55 : (2 : Nat) ^ 55 = 36028797018963968 := by norm_num
  rw [e52, e55] at h1
  rw [e52, e53] at h2
  omega

/-- Counterexample to C2 as stated: at `numSpots = 90` JavaScript computes
`Math.floor(90 * 0.7) = 62` — the binary64 product of the doubles `90` and
`0.7` is just below `63` — so the level holds 62 car and 19 truck spots,
not the exact floors `⌊0.7·90⌋ = 63` and `90 - 9 - 63 = 18` the claim
derives. -/
theorem level_new_90_counterexample :
    ((Level.new 1 90).parkingSpots.countP
        (fun s => s.vehicleType == VehicleType.CAR) = 62) ∧
    ((Level.new 1 90).parkingSpots.countP
        (fun s => s.vehicleType == VehicleType.TRUCK) = 19) ∧
    (7 * 90 / 10 = 63) ∧ ((62 : Nat) ≠ 63) ∧
    (90 - 90 / 10 - 7 * 90 / 10 = 18) ∧ ((19 : Nat) ≠ 18) := by
  decide

/-- C2 (amended): a level built with `numSpots = n`, `n` a safe integer,
holds exactly `Math.floor(n * 0.1)` motorcycle spots and
`Math.floor(n * 0.7)` car spots as computed in IEEE binary64 arithmetic,
with the trucks absorbing the remainder `n` minus both, for a total of
exactly `n` spots; for `n = 100` the binary64 floors coincide with the
exact ones and the counts are 10, 70 and 20. -/
theorem level_new_partition_ieee (f n : Nat) (h : n < 2 ^ 53) :
    ((Level.new f n).parkingSpots.countP
        (fun s => s.vehicleType == VehicleType.MOTORCYCLE) = mathFloorMul01 n) ∧
    ((Level.new f n).parkingSpots.countP
        (fun s => s.vehicleType == VehicleType.CAR) = mathFloorMul07 n) ∧
    ((Level.new f n).parkingSpots.countP
        (fun s => s.vehicleType == VehicleType.TRUCK) =
      n - (mathFloorMul01 n + mathFloorMul07 n)) ∧
    ((Level.new f n).parkingSpots.length = n) ∧
    (mathFloorMul01 100 = 10 ∧ mathFloorMul07 100 = 70 ∧
      (Level.new f 100).parkingSpots.countP
        (fun s => s.vehicleType == VehicleType.MOTORCYCLE) = 10 ∧
      (Level.new f 100).parkingSpots.countP
        (fun s => s.vehicleType == VehicleType.CAR) = 70 ∧
      (Level.new f 100).parkingSpots.countP
        (fun s => s.vehicleType == VehicleType.TRUCK) = 20) := by
  have key : ∀ m : Nat,
      ((Level.new f m).parkingSpots.countP
          (fun s => s.vehicleType == VehicleType.MOTORCYCLE) = mathFloorMul01 m) ∧
      ((Level.new f m).parkingSpots.countP
          (fun s => s.vehicleType == VehicleType.CAR) = mathFloorMul07 m) ∧
      ((Level.new f m).parkingSpots.countP
          (fun s => s.vehicleType == VehicleType.TRUCK) =
        m - (mathFloorMul01 m + mathFloorMul07 m)) ∧
      ((Level.new f m).parkingSpots.length = m) := by
    intro m
    have hlem := bikes_cars_le m
    refine ⟨?_, ?_, ?_, ?_⟩
    · dsimp only [Level.new]
      rw [List.countP_append, List.countP_append, countP_range'_map_const,
        countP_range'_map_const, countP_range'_map_const]
      simp
    · dsimp only [Level.new]
      rw [List.countP_append, List.countP_append, countP_range'_map_const,
        countP_range'_map_const, countP_range'_map_const]
      simp
    · dsimp only [Level.new]
      rw [List.countP_append, List.countP_append, countP_range'_map_const,
        countP_range'_map_const, countP_range'_map_const]
      simp
    · dsimp only [Level.new]
      rw [List.length_append, List.length_append, List.length_map,
        List.length_map, List.length_map, List.length_range',
        List.length_range', List.length_range']
      omega
  refine ⟨(key n).1, (key n).2.1, (key n).2.2.1, (key n).2.2.2,
    by decide, by decide, ?_, ?_, ?_⟩
  · rw [(key 100).1]
    decide
  · rw [(key 100).2.1]
    decide
  · rw [(key 100).2.2.1]
    decide

/-- Witness for the amended C2 at the repository's level size `n = 100`. -/
theorem level_new_partition_ieee_witness :
    (100 < 2 ^ 53) ∧
    (((Level.new 1 100).parkingSpots.countP
        (fun s => s.vehicleType == VehicleType.MOTORCYCLE) = mathFloorMul01 100) ∧
     ((Level.new 1 100).parkingSpots.countP
        (fun s => s.vehicleType == VehicleType.CAR) = mathFloorMul07 100) ∧
     ((Level.new 1 100).parkingSpots.countP
        (fun s => s.vehicleType == VehicleType.TRUCK) =
       100 - (mathFloorMul01 100 + mathFloorMul07 100)) ∧
     ((Level.new 1 100).parkingSpots.length = 100) ∧
     (mathFloorMul01 100 = 10 ∧ mathFloorMul07 100 = 70 ∧
       (Level.new 1 100).parkingSpots.countP
         (fun s => s.vehicleType == VehicleType.MOTORCYCLE) = 10 ∧
       (Level.new 1 100).parkingSpots.countP
         (fun s => s.vehicleType == VehicleType.CAR) = 70 ∧
       (Level.new 1 100).parkingSpots.countP
         (fun s => s.vehicleType == VehicleType.TRUCK) = 20)) :=
  ⟨by decide, level_new_partition_ieee 1 100 (by decide)⟩

/-- C10: the throwing branch of `ParkingSpot.parkVehicle` is unreachable
through `Level.parkVehicle`, because the level checks availability and type
equality before delegating; hence `Level.parkVehicle` and
`ParkingLot.parkVehicle` always return normally (`.ok`), never an exception. -/
theorem parkVehicle_never_throws (lot : ParkingLot) (v : Vehicle) :
    (∀ l : Level, ∃ r, l.parkVehicle v = .ok r) ∧
    (∃ r, lot.parkVehicle v = .ok r) := by
  constructor
  · intro l
    refine ⟨((specParkSpots v l.parkingSpots).1,
      { l with parkingSpots := (specParkSpots v l.parkingSpots).2 }), ?_⟩
    unfold Level.parkVehicle
    rw [parkScan_eq_spec]
    rfl
  · refine ⟨((specParkLot v lot.levels).1, ⟨(specParkLot v lot.levels).2⟩), ?_⟩
    unfold ParkingLot.parkVehicle
    rw [parkLevels_eq_spec]
    rfl

theorem unparkScan_not_found (v : Vehicle) (spots : List ParkingSpot)
    (h : ∀ s ∈ spots, s.getParkedVehicle ≠ some v) :
    Level.unparkScan v spots = (false, spots) := by
  induction spots with
  | nil => rfl
  | cons s rest ih =>
    have hs : ¬ ((¬ s.isAvailable) ∧ s.getParkedVehicle = some v) := by
      rintro ⟨-, hc⟩
      exact h s (List.mem_cons_self s rest) hc
    rw [Level.unparkScan, if_neg hs, ih (fun t ht => h t (List.mem_cons_of_mem s ht))]

theorem unparkLevels_not_found (v : Vehicle) (levels : List Level)
    (h : ∀ l ∈ levels, ∀ s ∈ l.parkingSpots, s.getParkedVehicle ≠ some v) :
    ParkingLot.unparkLevels v levels = (false, levels) := by
  induction levels with
  | nil => rfl
  | cons l ls ih =>
    have hl : l.unparkVehicle v = (false, l) := by
      unfold Level.unparkVehicle
      rw [unparkScan_not_found v l.parkingSpots (h l (List.mem_cons_self l ls))]
    rw [ParkingLot.unparkLevels, hl]
    simp only [Bool.false_eq_true, if_false]
    rw [ih (fun m hm => h m (List.mem_cons_of_mem l hm))]

/-- C6: unparking a vehicle that no spot currently holds returns the
not-found signal `false` and leaves every level and every spot unchanged. -/
theorem unparkVehicle_not_found (lot : ParkingLot) (v : Vehicle)
    (h : ∀ s ∈ lot.spots, s.getParkedVehicle ≠ some v) :
    lot.unparkVehicle v = (false, lot) := by
  have h' : ∀ l ∈ lot.levels, ∀ s ∈ l.parkingSpots, s.getParkedVehicle ≠ some v := by
    intro l hl s hs
    refine h s ?_
    unfold ParkingLot.spots
    rw [List.mem_flatten]
    exact ⟨l.parkingSpots, List.mem_map_of_mem Level.parkingSpots hl, hs⟩
  unfold ParkingLot.unparkVehicle
  rw [unparkLevels_not_found v lot.levels h']

/-- Witness for C6 at a concrete lot: one level with a single (truck) spot,
unparking a car that was never parked. -/
theorem unparkVehicle_not_found_witness :
    (∀ s ∈ (ParkingLot.mk [Level.new 1 1]).spots,
      s.getParkedVehicle ≠ some ⟨0, "ABC123", VehicleType.CAR⟩) ∧
    (ParkingLot.mk [Level.new 1 1]).unparkVehicle ⟨0, "ABC123", VehicleType.CAR⟩ =
      (false, ParkingLot.mk [Level.new 1 1]) :=
  ⟨by decide, unparkVehicle_not_found _ _ (by decide)⟩

/-- Whether some spot of the lot currently holds the vehicle. -/
def isParkedB (v : Vehicle) (lot : ParkingLot) : Bool :=
  lot.spots.any (fun s => s.getParkedVehicle == some v)

theorem parkedBeq_of_none {v : Vehicle} {s : ParkingSpot}
    (h : s.getParkedVehicle = none) : (s.getParkedVehicle == some v) = false := by
  rw [h]
  rfl

theorem parkedBeq_set_self (s : ParkingSpot) (w : Vehicle) :
    (({ s with parkedVehicle := some w } : ParkingSpot).getParkedVehicle == some w) = true := by
  simp [ParkingSpot.getParkedVehicle]

theorem parkedBeq_set_ne (s : ParkingSpot) {w v : Vehicle} (h : w ≠ v) :
    (({ s with parkedVehicle := some w } : ParkingSpot).getParkedVehicle == some v) = false := by
  simp [ParkingSpot.getParkedVehicle]
  exact h

theorem freeMatch_parked_none {w : Vehicle} {s : ParkingSpot}
    (h : freeMatch w s = true) : s.getParkedVehicle = none := by
  have h1 := ((freeMatch_iff w s).mp h).1
  unfold ParkingSpot.isAvailable at h1
  unfold ParkingSpot.getParkedVehicle
  exact Option.isNone_iff_eq_none.mp h1

theorem specParkSpots_cons_neg (w : Vehicle) (s : ParkingSpot)
    (rest : List ParkingSpot) (h : ¬ freeMatch w s = true) :
    specParkSpots w (s :: rest) =
      ((specParkSpots w rest).1, s :: (specParkSpots w rest).2) := by
  simp only [specParkSpots]
  rw [if_neg h]

theorem countP_specParkSpots_ne (v w : Vehicle) (hw : w ≠ v)
    (spots : List ParkingSpot) :
    (specParkSpots w spots).2.countP (fun s => s.getParkedVehicle == some v) =
      spots.countP (fun s => s.getParkedVehicle == some v) := by
  induction spots with
  | nil => simp [specParkSpots]
  | cons s rest ih =>
    by_cases h : freeMatch w s = true
    · have hstep : specParkSpots w (s :: rest) =
          (true, { s with parkedVehicle := some w } :: rest) := by
        unfold specParkSpots
        rw [if_pos h]
      rw [hstep, List.countP_cons, List.countP_cons,
        parkedBeq_set_ne s hw, parkedBeq_of_none (freeMatch_parked_none h)]
    · rw [specParkSpots_cons_neg w s rest h, List.countP_cons, List.countP_cons, ih]

theorem countP_specParkSpots_self (w : Vehicle) (spots : List ParkingSpot) :
    (specParkSpots w spots).2.countP (fun s => s.getParkedVehicle == some w) =
      spots.countP (fun s => s.getParkedVehicle == some w) +
        (if (specParkSpots w spots).1 = true then 1 else 0) := by
  induction spots with
  | nil => simp [specParkSpots]
  | cons s rest ih =>
    by_cases h : freeMatch w s = true
    · have hstep : specParkSpots w (s :: rest) =
          (true, { s with parkedVehicle := some w } :: rest) := by
        unfold specParkSpots
        rw [if_pos h]
      rw [hstep, List.countP_cons, List.countP_cons,
        parkedBeq_set_self s w, parkedBeq_of_none (freeMatch_parked_none h)]
      simp
    · rw [specParkSpots_cons_neg w s rest h, List.countP_cons, List.countP_cons, ih]
      dsimp only
      omega

theorem unparkScan_cons_neg (w : Vehicle) (s : ParkingSpot)
    (rest : List ParkingSpot)
    (h : ¬ ((¬ s.isAvailable) ∧ s.getParkedVehicle = some w)) :
    Level.unparkScan w (s :: rest) =
      ((Level.unparkScan w rest).1, s :: (Level.unparkScan w rest).2) := by
  simp only [Level.unparkScan]
  rw [if_neg h]

theorem countP_unparkScan (v w : Vehicle) (spots : List ParkingSpot) :
    (Level.unparkScan w spots).2.countP (fun s => s.getParkedVehicle == some v) ≤
      spots.countP (fun s => s.getParkedVehicle == some v) := by
  induction spots with
  | nil => simp [Level.unparkScan]
  | cons s rest ih =>
    by_cases h : (¬ s.isAvailable) ∧ s.getParkedVehicle = some w
    · have hstep : Level.unparkScan w (s :: rest) =
          (true, s.unparkVehicle :: rest) := by
        unfold Level.unparkScan
        rw [if_pos h]
      have hclear : (s.unparkVehicle.getParkedVehicle == some v) = false := by
        rfl
      rw [hstep, List.countP_cons, List.countP_cons, hclear]
      simp
    · rw [unparkScan_cons_neg w s rest h, List.countP_cons, List.countP_cons]
      omega

theorem lot_spots_cons (l : Level) (ls : List Level) :
    (ParkingLot.mk (l :: ls)).spots = l.parkingSpots ++ (ParkingLot.mk ls).spots := by
  simp [ParkingLot.spots]

theorem countP_specParkLot_ne (v w : Vehicle) (hw : w ≠ v) (levels : List Level) :
    (ParkingLot.mk (specParkLot w levels).2).spots.countP
        (fun s => s.getParkedVehicle == some v) =
      (ParkingLot.mk levels).spots.countP (fun s => s.getParkedVehicle == some v) := by
  induction levels with
  | nil => simp [specParkLot]
  | cons l ls ih =>
    by_cases hb : (specParkSpots w l.parkingSpots).1 = true
    · simp [specParkLot, hb, lot_spots_cons, List.countP_append]
      rw [countP_specParkSpots_ne v w hw]
    · simp [specParkLot, hb, lot_spots_cons, List.countP_append, ih]

theorem countP_specParkLot_self (w : Vehicle) (levels : List Level) :
    (ParkingLot.mk (specParkLot w levels).2).spots.countP
        (fun s => s.getParkedVehicle == some w) =
      (ParkingLot.mk levels).spots.countP (fun s => s.getParkedVehicle == some w) +
        (if (specParkLot w levels).1 = true then 1 else 0) := by
  induction levels with
  | nil => simp [specParkLot]
  | cons l ls ih =>
    by_cases hb : (specParkSpots w l.parkingSpots).1 = true
    · have hcount := countP_specParkSpots_self w l.parkingSpots
      rw [hb] at hcount
      simp [specParkLot, hb, lot_spots_cons, List.countP_append, hcount]
      omega
    · have hcount := countP_specParkSpots_self w l.parkingSpots
      have hb' : (specParkSpots w l.parkingSpots).1 = false := by
        revert hb; cases (specParkSpots w l.parkingSpots).1 <;> simp
      rw [hb'] at hcount
      simp [specParkLot, hb, lot_spots_cons, List.countP_append, ih]
      omega

theorem countP_unparkLevels (v w : Vehicle) (levels : List Level) :
    (ParkingLot.mk (ParkingLot.unparkLevels w levels).2).spots.countP
        (fun s => s.getParkedVehicle == some v) ≤
      (ParkingLot.mk levels).spots.countP (fun s => s.getParkedVehicle == some v) := by
  induction levels with
  | nil => simp [ParkingLot.unparkLevels]
  | cons l ls ih =>
    have hl : l.unparkVehicle w =
        ((Level.unparkScan w l.parkingSpots).1,
         { l with parkingSpots := (Level.unparkScan w l.parkingSpots).2 }) := rfl
    have hscan := countP_unparkScan v w l.parkingSpots
    by_cases hb : (Level.unparkScan w l.parkingSpots).1 = true
    · simp [ParkingLot.unparkLevels, hl, hb, lot_spots_cons, List.countP_append]
      omega
    · simp [ParkingLot.unparkLevels, hl, hb, lot_spots_cons, List.countP_append]
      omega

theorem newLevel_countP_zero (f n : Nat) (v : Vehicle) :
    (Level.new f n).parkingSpots.countP
      (fun s => s.getParkedVehicle == some v) = 0 := by
  have hcomp : ∀ t : VehicleType,
      ((fun s : ParkingSpot => s.getParkedVehicle == some v) ∘
        (fun i : Nat => (⟨i, t, none⟩ : ParkingSpot))) = fun _ => false :=
    fun t => funext fun i => rfl
  dsimp only [Level.new]
  simp only [List.countP_append, List.countP_map]
  rw [hcomp VehicleType.MOTORCYCLE, hcomp VehicleType.CAR,
    hcomp VehicleType.TRUCK, List.countP_false]
  rfl

theorem isParkedB_false_count (v : Vehicle) (lot : ParkingLot)
    (h : isParkedB v lot = false) : occCount v lot = 0 := by
  unfold isParkedB at h
  unfold occCount
  rw [List.countP_eq_zero]
  intro s hs
  exact (List.any_eq_false.mp h) s hs

/-- States reachable from a fresh `ParkingLot` by adding freshly constructed
levels and calling `parkVehicle` / `unparkVehicle` without restriction. -/
inductive ReachAny : ParkingLot → Prop where
  | init : ReachAny ⟨[]⟩
  | addLevel (f n : Nat) {lot : ParkingLot} :
      ReachAny lot → ReachAny (lot.addLevel (Level.new f n))
  | park {lot : ParkingLot} (v : Vehicle) {b : Bool} {lot' : ParkingLot} :
      ReachAny lot → lot.parkVehicle v = .ok (b, lot') → ReachAny lot'
  | unpark {lot : ParkingLot} (v : Vehicle) :
      ReachAny lot → ReachAny (lot.unparkVehicle v).2

/-- States reachable as in `ReachAny`, but `parkVehicle` is only invoked
for a vehicle that is not currently parked anywhere in the lot. -/
inductive ReachGuarded : ParkingLot → Prop where
  | init : ReachGuarded ⟨[]⟩
  | addLevel (f n : Nat) {lot : ParkingLot} :
      ReachGuarded lot → ReachGuarded (lot.addLevel (Level.new f n))
  | park {lot : ParkingLot} (v : Vehicle) {b : Bool} {lot' : ParkingLot} :
      ReachGuarded lot → isParkedB v lot = false →
      lot.parkVehicle v = .ok (b, lot') → ReachGuarded lot'
  | unpark {lot : ParkingLot} (v : Vehicle) :
      ReachGuarded lot → ReachGuarded (lot.unparkVehicle v).2

theorem parkVehicle_ok_eq {lot lot' : ParkingLot} {v : Vehicle} {b : Bool}
    (h : lot.parkVehicle v = .ok (b, lot')) :
    lot' = ⟨(specParkLot v lot.levels).2⟩ := by
  unfold ParkingLot.parkVehicle at h
  rw [parkLevels_eq_spec] at h
  simp [Except.map] at h
  exact h.2.symm

theorem occCount_addLevel (v : Vehicle) (f n : Nat) (lot : ParkingLot) :
    occCount v (lot.addLevel (Level.new f n)) = occCount v lot := by
  unfold occCount ParkingLot.addLevel ParkingLot.spots
  simp [List.map_append, List.flatten_append, List.countP_append,
    newLevel_countP_zero]

theorem occCount_unpark_le (v w : Vehicle) (lot : ParkingLot) :
    occCount v (lot.unparkVehicle w).2 ≤ occCount v lot :=
  countP_unparkLevels v w lot.levels

/-- C5 (amended): in every state reachable from a fresh `ParkingLot` by
adding freshly constructed levels, parking vehicles that are not already
parked, and arbitrary unparking, every vehicle occupies at most one spot. -/
theorem guarded_reach_at_most_one (lot : ParkingLot) (h : ReachGuarded lot)
    (v : Vehicle) : occCount v lot ≤ 1 := by
  induction h with
  | init => simp [occCount, ParkingLot.spots]
  | addLevel f n hr ih =>
    rw [occCount_addLevel]
    exact ih
  | park w hr hg heq ih =>
    rename_i lot₀ b lot'
    have hlot' := parkVehicle_ok_eq heq
    subst hlot'
    by_cases hw : w = v
    · subst hw
      have h0 : occCount w lot₀ = 0 := isParkedB_false_count w lot₀ hg
      have hself : occCount w (ParkingLot.mk (specParkLot w lot₀.levels).2) =
          occCount w lot₀ +
            (if (specParkLot w lot₀.levels).1 = true then 1 else 0) :=
        countP_specParkLot_self w lot₀.levels
      rw [hself, h0]
      by_cases hb : (specParkLot w lot₀.levels).1 = true <;> simp [hb]
    · have hne : occCount v (ParkingLot.mk (specParkLot w lot₀.levels).2) =
          occCount v lot₀ := countP_specParkLot_ne v w hw lot₀.levels
      rw [hne]
      exact ih
  | unpark w hr ih =>
    exact le_trans (occCount_unpark_le v w _) ih

/-- Witness for the amended C5 at a concrete reachable state: one fresh
level with three spots, one car parked once. -/
theorem guarded_reach_at_most_one_witness :
    occCount ⟨0, "ABC123", VehicleType.CAR⟩
      (ParkingLot.mk [Level.mk 1
        [⟨1, VehicleType.CAR, some ⟨0, "ABC123", VehicleType.CAR⟩⟩,
         ⟨2, VehicleType.CAR, none⟩,
         ⟨3, VehicleType.TRUCK, none⟩]]) ≤ 1 :=
  guarded_reach_at_most_one _
    (ReachGuarded.park ⟨0, "ABC123", VehicleType.CAR⟩
      (ReachGuarded.addLevel 1 3 ReachGuarded.init) (by decide) (by rfl))
    ⟨0, "ABC123", VehicleType.CAR⟩

/-- Counterexample to C5 as stated: parking the same car object twice is a
legal call sequence (`parkVehicle` has no already-parked check), and it
leaves the car as the parked vehicle of two distinct spots. -/
theorem double_park_counterexample :
    ReachAny (ParkingLot.mk [Level.mk 1
      [⟨1, VehicleType.CAR, some ⟨0, "ABC123", VehicleType.CAR⟩⟩,
       ⟨2, VehicleType.CAR, some ⟨0, "ABC123", VehicleType.CAR⟩⟩,
       ⟨3, VehicleType.TRUCK, none⟩]]) ∧
    occCount ⟨0, "ABC123", VehicleType.CAR⟩
      (ParkingLot.mk [Level.mk 1
        [⟨1, VehicleType.CAR, some ⟨0, "ABC123", VehicleType.CAR⟩⟩,
         ⟨2, VehicleType.CAR, some ⟨0, "ABC123", VehicleType.CAR⟩⟩,
         ⟨3, VehicleType.TRUCK, none⟩]]) = 2 :=
  ⟨ReachAny.park ⟨0, "ABC123", VehicleType.CAR⟩
      (ReachAny.park ⟨0, "ABC123", VehicleType.CAR⟩
        (ReachAny.addLevel 1 3 ReachAny.init) (by rfl))
      (by rfl),
   by decide⟩

theorem mem_spots_iff (t : ParkingSpot) (lot : ParkingLot) :
    t ∈ lot.spots ↔ ∃ l ∈ lot.levels, t ∈ l.parkingSpots := by
  unfold ParkingLot.spots
  rw [List.mem_flatten]
  constructor
  · rintro ⟨a, ha, hta⟩
    rcases List.mem_map.mp ha with ⟨l, hl, rfl⟩
    exact ⟨l, hl, hta⟩
  · rintro ⟨l, hl, htl⟩
    exact ⟨l.parkingSpots, List.mem_map_of_mem _ hl, htl⟩

theorem parkVehicle_true_of_mem {w : Vehicle} {t : ParkingSpot}
    {lot : ParkingLot} (hmem : t ∈ lot.spots) (hfm : freeMatch w t = true) :
    ∃ lot', lot.parkVehicle w = .ok (true, lot') := by
  have hflag : (specParkLot w lot.levels).1 = true := by
    refine (specParkLot_true_iff w lot.levels).mpr ?_
    rcases (mem_spots_iff t lot).mp hmem with ⟨l, hl, htl⟩
    exact ⟨l, hl, t, htl, hfm⟩
  refine ⟨⟨(specParkLot w lot.levels).2⟩, ?_⟩
  unfold ParkingLot.parkVehicle
  rw [parkLevels_eq_spec]
  simp [Except.map, hflag]

theorem parked_not_available {s : ParkingSpot} {v : Vehicle}
    (hv : s.getParkedVehicle = some v) : ¬ (s.isAvailable = true) := by
  unfold ParkingSpot.isAvailable
  rw [Option.isNone_iff_eq_none]
  unfold ParkingSpot.getParkedVehicle at hv
  rw [hv]
  simp

theorem unparkScan_split (v : Vehicle) (s : ParkingSpot)
    (spots : List ParkingSpot)
    (hcount : spots.countP (fun t => t.getParkedVehicle == some v) = 1)
    (hmem : s ∈ spots) (hv : s.getParkedVehicle = some v) :
    ∃ l1 l2, spots = l1 ++ s :: l2 ∧
      Level.unparkScan v spots = (true, l1 ++ s.unparkVehicle :: l2) := by
  induction spots with
  | nil => cases hmem
  | cons a rest ih =>
    by_cases ha : a.getParkedVehicle = some v
    · have hc1 : (a.getParkedVehicle == some v) = true := by
        rw [ha]
        exact beq_self_eq_true (some v)
      rw [List.countP_cons, hc1] at hcount
      rw [if_pos rfl] at hcount
      have hrest0 : rest.countP (fun t => t.getParkedVehicle == some v) = 0 := by
        omega
      have hsa : s = a := by
        rcases List.mem_cons.mp hmem with h' | h'
        · exact h'
        · exfalso
          have hpos : 0 < rest.countP (fun t => t.getParkedVehicle == some v) :=
            List.countP_pos_iff.mpr ⟨s, h', by rw [hv]; exact beq_self_eq_true (some v)⟩
          omega
      subst hsa
      refine ⟨[], rest, rfl, ?_⟩
      have hcond : (¬ s.isAvailable) ∧ s.getParkedVehicle = some v :=
        ⟨parked_not_available hv, hv⟩
      simp only [Level.unparkScan]
      rw [if_pos hcond]
      rfl
    · have hsa : s ≠ a := fun h' => ha (h' ▸ hv)
      have hmem' : s ∈ rest := by
        rcases List.mem_cons.mp hmem with h' | h'
        · exact absurd h' hsa
        · exact h'
      have hc0 : (a.getParkedVehicle == some v) = false :=
        beq_eq_false_iff_ne.mpr ha
      rw [List.countP_cons, hc0, if_neg Bool.false_ne_true] at hcount
      obtain ⟨l1, l2, hsplit, hscan⟩ := ih (by omega) hmem'
      have hconda : ¬ ((¬ a.isAvailable = true) ∧ a.getParkedVehicle = some v) :=
        fun hc => ha hc.2
      refine ⟨a :: l1, l2, by rw [hsplit, List.cons_append], ?_⟩
      rw [unparkScan_cons_neg v a rest hconda, hscan, List.cons_append]

theorem countP_not_found {v : Vehicle} {spots : List ParkingSpot}
    (h : spots.countP (fun t => t.getParkedVehicle == some v) = 0) :
    ∀ t ∈ spots, t.getParkedVehicle ≠ some v := by
  intro t ht hc
  have := List.countP_eq_zero.mp h t ht
  rw [hc] at this
  exact this (beq_self_eq_true (some v))

theorem unparkLevels_split (v : Vehicle) (s : ParkingSpot)
    (levels : List Level)
    (hcount : (ParkingLot.mk levels).spots.countP
        (fun t => t.getParkedVehicle == some v) = 1)
    (hmem : s ∈ (ParkingLot.mk levels).spots)
    (hv : s.getParkedVehicle = some v) :
    (ParkingLot.unparkLevels v levels).1 = true ∧
    ∃ g1 g2, (ParkingLot.mk levels).spots = g1 ++ s :: g2 ∧
      (ParkingLot.mk (ParkingLot.unparkLevels v levels).2).spots =
        g1 ++ s.unparkVehicle :: g2 := by
  induction levels with
  | nil => cases hmem
  | cons l ls ih =>
    rw [lot_spots_cons, List.countP_append] at hcount
    rcases List.mem_append.mp (by rw [lot_spots_cons] at hmem; exact hmem)
      with hml | hmls
    · have hl1 : 0 < l.parkingSpots.countP
          (fun t => t.getParkedVehicle == some v) :=
        List.countP_pos_iff.mpr ⟨s, hml, by rw [hv]; exact beq_self_eq_true (some v)⟩
      have hc1 : l.parkingSpots.countP (fun t => t.getParkedVehicle == some v) = 1 := by
        omega
      have hc2 : (ParkingLot.mk ls).spots.countP
          (fun t => t.getParkedVehicle == some v) = 0 := by
        omega
      obtain ⟨l1, l2, hsplit, hscan⟩ := unparkScan_split v s l.parkingSpots hc1 hml hv
      have hlev : l.unparkVehicle v =
          (true, { l with parkingSpots := l1 ++ s.unparkVehicle :: l2 }) := by
        unfold Level.unparkVehicle
        rw [hscan]
      constructor
      · simp [ParkingLot.unparkLevels, hlev]
      · refine ⟨l1, l2 ++ (ParkingLot.mk ls).spots, ?_, ?_⟩
        · rw [lot_spots_cons, hsplit, List.append_assoc, List.cons_append]
        · simp [ParkingLot.unparkLevels, hlev, lot_spots_cons, List.append_assoc]
    · have hls1 : 0 < (ParkingLot.mk ls).spots.countP
          (fun t => t.getParkedVehicle == some v) :=
        List.countP_pos_iff.mpr ⟨s, hmls, by rw [hv]; exact beq_self_eq_true (some v)⟩
      have hc1 : l.parkingSpots.countP (fun t => t.getParkedVehicle == some v) = 0 := by
        omega
      have hc2 : (ParkingLot.mk ls).spots.countP
          (fun t => t.getParkedVehicle == some v) = 1 := by
        omega
      have hlev : l.unparkVehicle v = (false, l) := by
        unfold Level.unparkVehicle
        rw [unparkScan_not_found v l.parkingSpots (countP_not_found hc1)]
      obtain ⟨hflag, g1, g2, hsplit, hres⟩ := ih hc2 hmls
      constructor
      · simp [ParkingLot.unparkLevels, hlev, hflag]
      · refine ⟨l.parkingSpots ++ g1, g2, ?_, ?_⟩
        · rw [lot_spots_cons, hsplit, List.append_assoc]
        · simp [ParkingLot.unparkLevels, hlev, lot_spots_cons, hres,
            List.append_assoc]

/-- C7 (amended): when a vehicle `v` occupies exactly one spot `s`,
`unparkVehicle v` returns `true`, clears exactly that spot (everything else
unchanged), the cleared spot is available again, and an immediately
following `parkVehicle` of any vehicle of the spot's type succeeds. -/
theorem unpark_frees_spot (lot : ParkingLot) (v : Vehicle) (s : ParkingSpot)
    (hocc : occCount v lot = 1) (hmem : s ∈ lot.spots)
    (hv : s.getParkedVehicle = some v) :
    (lot.unparkVehicle v).1 = true ∧
    s.unparkVehicle.isAvailable = true ∧
    (∃ g1 g2, lot.spots = g1 ++ s :: g2 ∧
      (lot.unparkVehicle v).2.spots = g1 ++ s.unparkVehicle :: g2) ∧
    (∀ w : Vehicle, w.getType = s.getVehicleType →
      ∃ lot', (lot.unparkVehicle v).2.parkVehicle w = .ok (true, lot')) := by
  obtain ⟨hflag, g1, g2, hsplit, hres⟩ :=
    unparkLevels_split v s lot.levels hocc hmem hv
  refine ⟨hflag, rfl, ⟨g1, g2, hsplit, hres⟩, ?_⟩
  intro w hw
  have hmem' : s.unparkVehicle ∈ (lot.unparkVehicle v).2.spots := by
    rw [show (lot.unparkVehicle v).2.spots =
        (ParkingLot.mk (ParkingLot.unparkLevels v lot.levels).2).spots from rfl, hres]
    exact List.mem_append.mpr (Or.inr (List.mem_cons_self _ _))
  have hfm : freeMatch w s.unparkVehicle = true := by
    unfold freeMatch ParkingSpot.unparkVehicle ParkingSpot.isAvailable
      ParkingSpot.getVehicleType
    simp
    unfold ParkingSpot.getVehicleType at hw
    exact hw.symm
  exact parkVehicle_true_of_mem hmem' hfm

/-- Witness for the amended C7: a car parked in the first of two car spots
is unparked and the lot accepts a same-type vehicle again. -/
theorem unpark_frees_spot_witness :
    occCount ⟨0, "ABC123", VehicleType.CAR⟩
        (ParkingLot.mk [Level.mk 1
          [⟨1, VehicleType.CAR, some ⟨0, "ABC123", VehicleType.CAR⟩⟩,
           ⟨2, VehicleType.CAR, none⟩,
           ⟨3, VehicleType.TRUCK, none⟩]]) = 1 ∧
    ((ParkingLot.mk [Level.mk 1
          [⟨1, VehicleType.CAR, some ⟨0, "ABC123", VehicleType.CAR⟩⟩,
           ⟨2, VehicleType.CAR, none⟩,
           ⟨3, VehicleType.TRUCK, none⟩]]).unparkVehicle
        ⟨0, "ABC123", VehicleType.CAR⟩).1 = true ∧
    (⟨1, VehicleType.CAR, some ⟨0, "ABC123", VehicleType.CAR⟩⟩ :
        ParkingSpot).unparkVehicle.isAvailable = true ∧
    (∃ g1 g2, (ParkingLot.mk [Level.mk 1
          [⟨1, VehicleType.CAR, some ⟨0, "ABC123", VehicleType.CAR⟩⟩,
           ⟨2, VehicleType.CAR, none⟩,
           ⟨3, VehicleType.TRUCK, none⟩]]).spots =
        g1 ++ (⟨1, VehicleType.CAR, some ⟨0, "ABC123", VehicleType.CAR⟩⟩ :
          ParkingSpot) :: g2 ∧
      ((ParkingLot.mk [Level.mk 1
          [⟨1, VehicleType.CAR, some ⟨0, "ABC123", VehicleType.CAR⟩⟩,
           ⟨2, VehicleType.CAR, none⟩,
           ⟨3, VehicleType.TRUCK, none⟩]]).unparkVehicle
        ⟨0, "ABC123", VehicleType.CAR⟩).2.spots =
        g1 ++ (⟨1, VehicleType.CAR, some ⟨0, "ABC123", VehicleType.CAR⟩⟩ :
          ParkingSpot).unparkVehicle :: g2) ∧
    (∀ w : Vehicle, w.getType =
        (⟨1, VehicleType.CAR, some ⟨0, "ABC123", VehicleType.CAR⟩⟩ :
          ParkingSpot).getVehicleType →
      ∃ lot', ((ParkingLot.mk [Level.mk 1
          [⟨1, VehicleType.CAR, some ⟨0, "ABC123", VehicleType.CAR⟩⟩,
           ⟨2, VehicleType.CAR, none⟩,
           ⟨3, VehicleType.TRUCK, none⟩]]).unparkVehicle
        ⟨0, "ABC123", VehicleType.CAR⟩).2.parkVehicle w = .ok (true, lot')) :=
  ⟨by decide,
   unpark_frees_spot _ ⟨0, "ABC123", VehicleType.CAR⟩
     ⟨1, VehicleType.CAR, some ⟨0, "ABC123", VehicleType.CAR⟩⟩
     (by decide) (by decide) (by decide)⟩

/-- Counterexample to C7 as stated: after double-parking one car (a state
the public interface can reach), the car is parked in the spot numbered 2,
but `unparkVehicle` frees only the spot numbered 1 and returns `true`;
the spot numbered 2 — a spot `s` holding `v` — is not made available. -/
theorem unpark_second_spot_counterexample :
    ReachAny (ParkingLot.mk [Level.mk 1
      [⟨1, VehicleType.CAR, some ⟨0, "ABC123", VehicleType.CAR⟩⟩,
       ⟨2, VehicleType.CAR, some ⟨0, "ABC123", VehicleType.CAR⟩⟩,
       ⟨3, VehicleType.TRUCK, none⟩]]) ∧
    ((⟨2, VehicleType.CAR, some ⟨0, "ABC123", VehicleType.CAR⟩⟩ :
        ParkingSpot) ∈ (ParkingLot.mk [Level.mk 1
      [⟨1, VehicleType.CAR, some ⟨0, "ABC123", VehicleType.CAR⟩⟩,
       ⟨2, VehicleType.CAR, some ⟨0, "ABC123", VehicleType.CAR⟩⟩,
       ⟨3, VehicleType.TRUCK, none⟩]]).spots ∧
     (⟨2, VehicleType.CAR, some ⟨0, "ABC123", VehicleType.CAR⟩⟩ :
        ParkingSpot).getParkedVehicle = some ⟨0, "ABC123", VehicleType.CAR⟩ ∧
     ((ParkingLot.mk [Level.mk 1
        [⟨1, VehicleType.CAR, some ⟨0, "ABC123", VehicleType.CAR⟩⟩,
         ⟨2, VehicleType.CAR, some ⟨0, "ABC123", VehicleType.CAR⟩⟩,
         ⟨3, VehicleType.TRUCK, none⟩]]).unparkVehicle
        ⟨0, "ABC123", VehicleType.CAR⟩) =
       (true, ParkingLot.mk [Level.mk 1
        [⟨1, VehicleType.CAR, none⟩,
         ⟨2, VehicleType.CAR, some ⟨0, "ABC123", VehicleType.CAR⟩⟩,
         ⟨3, VehicleType.TRUCK, none⟩]]) ∧
     (⟨2, VehicleType.CAR, some ⟨0, "ABC123", VehicleType.CAR⟩⟩ :
        ParkingSpot).isAvailable = false) :=
  ⟨ReachAny.park ⟨0, "ABC123", VehicleType.CAR⟩
      (ReachAny.park ⟨0, "ABC123", VehicleType.CAR⟩
        (ReachAny.addLevel 1 3 ReachAny.init) (by rfl))
      (by rfl),
   by decide⟩

end ParkingGarage

namespace SpecialString

/-!
Embedding of `getSpecialString` / `fillRest` from the string-increment
exercise.  Characters are their ASCII codes (97 = `a` … 122 = `z`); the
in-place array mutation is functional: positions left of the bump index are
never read after being written, so the result depends only on the input.
-/

/-- The inner search of `fillRest`: the smallest code in `'a'..'z'` that
differs from the previous character (no constraint when there is none). -/
def fillFind (prev : Option Nat) : Option Nat :=
  (List.range' 97 26).find? (fun code =>
    match prev with
    | none => true
    | some p => code != p)

/-- `fillRest`: set each remaining position to the smallest valid character,
failing if some position admits none. -/
def fillRest (prev : Option Nat) (len : Nat) : Option (List Nat) :=
  match len with
  | 0 => some []
  | n + 1 =>
    match fillFind prev with
    | none => none
    | some c =>
      match fillRest (some c) n with
      | none => none
      | some rest => some (c :: rest)

/-- The inner loop of `getSpecialString` at one index: try the codes
`cur+1 … 122` in order; a code is attempted when the index is 0 or the code
differs from the previous character, and accepted when `fillRest` succeeds
on the suffix. -/
def tryCodes (prev : Option Nat) (restLen : Nat) : List Nat → Option (Nat × List Nat)
  | [] => none
  | code :: more =>
    if (match prev with
        | none => true
        | some p => code != p) then
      match fillRest (some code) restLen with
      | some rest => some (code, rest)
      | none => tryCodes prev restLen more
    else tryCodes prev restLen more

/-- One iteration of the outer loop of `getSpecialString` at `index`:
the candidate codes are `s[index]+1 … 122`, and on success the result is
the untouched strict front of `s`, the bumped code, and the refilled tail. -/
def tryIndex (s : List Nat) (index : Nat) : Option (List Nat) :=
  let cur := s.getD index 0
  let prev : Option Nat := if index = 0 then none else some (s.getD (index - 1) 0)
  match tryCodes prev (s.length - (index + 1))
      (List.range' (cur + 1) (123 - (cur + 1))) with
  | some (c, rest) => some (s.take index ++ c :: rest)
  | none => none

/-- The outer loop of `getSpecialString`, scanning `index, index-1, …, 0`. -/
def gssAux (s : List Nat) : Nat → Option (List Nat)
  | 0 => tryIndex s 0
  | i + 1 =>
    match tryIndex s (i + 1) with
    | some r => some r
    | none => gssAux s i

/-- `getSpecialString`: scan from the last index down; `none` models the
failure string `"-1"`. -/
def getSpecialString (s : List Nat) : Option (List Nat) :=
  match s.length with
  | 0 => none
  | n + 1 => gssAux s n

def str2codes (s : String) : List Nat := s.data.map Char.toNat

def hasAdjacentDup : List Nat → Bool
  | [] => false
  | [_] => false
  | a :: b :: rest => (a == b) || hasAdjacentDup (b :: rest)

def lexLt : List Nat → List Nat → Bool
  | [], [] => false
  | [], _ :: _ => true
  | _ :: _, [] => false
  | a :: as, b :: bs => decide (a < b) || ((a == b) && lexLt as bs)

/-- C3 (code-level evaluation): the algorithm maps its own Test Case 9
input `"abccde"` to `"abccdf"`, not the test's expected `"abcdab"`: the
output keeps the adjacent `"cc"`, so it is not duplicate-free, whereas
`"abcdab"` is a same-length duplicate-free string strictly greater than
both the input and the invalid output.  The claim's three quoted examples
do hold. -/
theorem getSpecialString_own_test_failure :
    getSpecialString (str2codes "abccde") = some (str2codes "abccdf") ∧
    getSpecialString (str2codes "abccde") ≠ some (str2codes "abcdab") ∧
    hasAdjacentDup (str2codes "abccdf") = true ∧
    hasAdjacentDup (str2codes "abcdab") = false ∧
    (str2codes "abcdab").length = (str2codes "abccde").length ∧
    lexLt (str2codes "abccde") (str2codes "abcdab") = true ∧
    lexLt (str2codes "abccdf") (str2codes "abcdab") = true ∧
    getSpecialString (str2codes "a") = some (str2codes "b") ∧
    getSpecialString (str2codes "aba") = some (str2codes "abc") ∧
    getSpecialString (str2codes "zz") = none := by
  decide

end SpecialString

namespace ObserverPattern

/-!
Embedding of the Observer example's `Subject`.  Observer objects are
numeric identities; `notify(observer)` iterates `(o) => o.update(data)`,
where `data` is a free identifier with no binding in the file, so the first
callback invocation raises `ReferenceError: data is not defined`.
-/

structure Subject where
  observers : List Nat
deriving DecidableEq, Repr

def Subject.attach (s : Subject) (o : Nat) : Subject :=
  ⟨s.observers ++ [o]⟩

def Subject.detach (s : Subject) (o : Nat) : Subject :=
  ⟨s.observers.filter (fun x => x != o)⟩

/-- Identifiers bound at module scope in the observer file.  `data` is not
among them. -/
def moduleScope : List String :=
  ["Subject", "ConcreteObserver", "subject", "observer1", "observer2"]

/-- Evaluation of the free identifier `data` inside the notify callback:
a lookup in the enclosing scopes, which fails. -/
def lookupData : Option String :=
  if "data" ∈ moduleScope then some "data" else none

/-- `notify`: invoke each observer's `update` with the value of `data`,
collecting the delivered calls; an unbound `data` raises a
`ReferenceError` at the first invocation.  The parameter is named
`observer` in the source and is never used. -/
def Subject.notify (s : Subject) ( observer : String) :
    Except String (List (Nat × String)) :=
  s.observers.foldlM
    (fun calls o =>
      match lookupData with
      | none => Except.error "ReferenceError: data is not defined"
      | some d => Except.ok (calls ++ [(o, d)]))
    []

/-- C4 (code-level evaluation): with two observers attached in order,
`notify` raises `ReferenceError: data is not defined` and delivers no
update call to any observer; with no observers attached, `notify` returns
normally having delivered nothing — the error arises exactly from invoking
an observer callback, contradicting the file's own comment that both
observers receive the update. -/
theorem notify_raises_reference_error :
    (((Subject.mk []).attach 1).attach 2).observers = [1, 2] ∧
    ((((Subject.mk []).attach 1).attach 2).notify "Something changed!") =
      Except.error "ReferenceError: data is not defined" ∧
    ((Subject.mk []).notify "Something changed!") = Except.ok [] :=
  ⟨rfl, rfl, rfl⟩

end ObserverPattern

namespace SingletonPattern

/-!
Embedding of the two singleton lifecycles.  Object identity is a numeric
allocation counter; the registered instance lives in a mutable cell
(`Singleton.instance` / the module-level `instance` of the parking file).
-/

structure SRegistry where
  cell : Option Nat
  next : Nat
deriving DecidableEq, Repr

/-- `new Singleton()` (`src/design-patterns/creational/singleton.js`):
returns the registered instance when one exists; otherwise allocates a
fresh object, registers it (`Singleton.instance = this`) and returns it. -/
def Singleton.new : SRegistry → Nat × SRegistry
  | ⟨some i, n⟩ => (i, ⟨some i, n⟩)
  | ⟨none, n⟩ => (n, ⟨some n, n + 1⟩)

/-- `Singleton.getInstance()`: constructs on first access, then returns the
registered instance. -/
def Singleton.getInstance (st : SRegistry) : Nat × SRegistry :=
  match st.cell with
  | some i => (i, st)
  | none =>
    let p := Singleton.new st
    (p.1, { p.2 with cell := some p.1 })

structure PRegistry where
  cell : Option Nat
  next : Nat
deriving DecidableEq, Repr

/-- `new ParkingLot()` (`src/lld/javascript/parking-garage.js`): throws when
the module-level `instance` is set; otherwise allocates and returns a fresh
object — the constructor never assigns `instance`. -/
def parkingLotNew : PRegistry → Except String (Nat × PRegistry)
  | ⟨some _, _⟩ =>
    .error "Use ParkingLot.getInstance() to get the singleton instance."
  | ⟨none, n⟩ => .ok (n, ⟨none, n + 1⟩)

/-- `ParkingLot.getInstance()`: constructs and assigns `instance` when the
cell is empty, then returns the cell's contents. -/
def parkingLotGetInstance (st : PRegistry) : Except String (Nat × PRegistry) :=
  match st.cell with
  | some i => .ok (i, st)
  | none =>
    match parkingLotNew st with
    | .error e => .error e
    | .ok (i, st') => .ok (i, { st' with cell := some i })

/-- Counterexample to C8 as stated: for the `ParkingLot` singleton, direct
construction from the fresh state yields object 0 without registering it,
after which the accessor creates and returns the distinct object 1 — the
two acquisition calls do not yield the same instance. -/
theorem parkingLot_new_then_getInstance_distinct :
    parkingLotNew ⟨none, 0⟩ = .ok (0, ⟨none, 1⟩) ∧
    parkingLotGetInstance ⟨none, 1⟩ = .ok (1, ⟨some 1, 2⟩) ∧
    (0 : Nat) ≠ 1 :=
  ⟨rfl, rfl, by decide⟩

/-- C8 (amended): the `Singleton` class creates its instance lazily on the
first access through either the constructor or `getInstance` and every
later access through either path returns that same instance; the
`ParkingLot` accessor likewise creates lazily and then always returns the
registered instance, but direct construction never yields the shared
instance — it throws once the instance cell is set, and on an empty cell it
returns a fresh object that is never registered. -/
theorem singleton_lifecycle :
    (∀ st : SRegistry,
      (Singleton.getInstance (Singleton.new st).2).1 = (Singleton.new st).1) ∧
    (∀ st : SRegistry,
      (Singleton.new (Singleton.getInstance st).2).1 = (Singleton.getInstance st).1) ∧
    (∀ st : SRegistry,
      (Singleton.getInstance (Singleton.getInstance st).2).1 =
        (Singleton.getInstance st).1) ∧
    (∀ n : Nat, Singleton.new ⟨none, n⟩ = (n, ⟨some n, n + 1⟩)) ∧
    (∀ i n : Nat, Singleton.new ⟨some i, n⟩ = (i, ⟨some i, n⟩)) ∧
    (∀ i n : Nat, parkingLotNew ⟨some i, n⟩ =
      .error "Use ParkingLot.getInstance() to get the singleton instance.") ∧
    (∀ n : Nat, parkingLotNew ⟨none, n⟩ = .ok (n, ⟨none, n + 1⟩)) ∧
    (∀ n : Nat, parkingLotGetInstance ⟨none, n⟩ = .ok (n, ⟨some n, n + 1⟩)) ∧
    (∀ i n : Nat, parkingLotGetInstance ⟨some i, n⟩ = .ok (i, ⟨some i, n⟩)) := by
  refine ⟨?_, ?_, ?_, fun n => rfl, fun i n => rfl, fun i n => rfl,
    fun n => rfl, fun n => rfl, fun i n => rfl⟩ <;>
    (intro st; rcases st with ⟨_ | i, n⟩ <;> rfl)

end SingletonPattern

namespace TopK

/-!
Embedding of `src/liveupdates/PriorityQueue.js`.  Words are `String`s;
the frequency `Map` is an association list in key-insertion order.
-/

/-- One `freq.set(word, (freq.get(word) || 0) + 1)` step. -/
def bumpWord : List (String × Nat) → String → List (String × Nat)
  | [], w => [(w, 1)]
  | (x, c) :: rest, w =>
    if x = w then (x, c + 1) :: rest
    else (x, c) :: bumpWord rest w

/-- `getFrequencies`: count each word, keys kept in first-occurrence order. -/
def getFrequencies (words : List String) : List (String × Nat) :=
  words.foldl bumpWord []

/-- Dictionary (codepoint) order on code lists: the comparison
`localeCompare` performs on the lowercase ASCII words of this file. -/
def charsLt : List Nat → List Nat → Bool
  | [], [] => false
  | [], _ :: _ => true
  | _ :: _, [] => false
  | a :: as, b :: bs => decide (a < b) || ((a == b) && charsLt as bs)

def wordCodes (w : String) : List Nat := w.data.map Char.toNat

/-- `String.prototype.localeCompare` restricted to all-lowercase ASCII
words — the only words the general theorem below quantifies over — where
the default collation coincides with codepoint order: negative, zero or
positive as `a` sorts before, equal to or after `b`.  On mixed-case words
the default collation differs from codepoint order; that regime is
modelled separately by `icuCompare`. -/
def localeCompare (a b : String) : Int :=
  if charsLt (wordCodes a) (wordCodes b) then -1
  else if charsLt (wordCodes b) (wordCodes a) then 1
  else 0

/-- `compareFunc`: higher frequency first, ties by `localeCompare`. -/
def compareFunc (a b : String × Nat) : Int :=
  if a.2 ≠ b.2 then (b.2 : Int) - (a.2 : Int)
  else localeCompare a.1 b.1

/-- The queue's order relation: `a` is dequeued no later than `b`. -/
def pqLe (a b : String × Nat) : Prop := compareFunc a b ≤ 0

instance : DecidableRel pqLe := fun a b =>
  inferInstanceAs (Decidable (compareFunc a b ≤ 0))

/-- Modelled from the spec: the `PriorityQueue` of
`@datastructures-js/priority-queue` is an external library, absent from the
repository; its contract is that `dequeue()` repeatedly removes a least
remaining element under the supplied comparator, so after enqueueing the
(distinct-keyed) frequency entries the observable dequeue sequence is the
comparator-sorted sequence. -/
def pqDequeueAll (l : List (String × Nat)) : List (String × Nat) :=
  List.insertionSort pqLe l

/-- `topKFrequent`: empty guard, count, enqueue, dequeue `k` words. -/
def topKFrequent (words : List String) (k : Nat) : List String :=
  if words.isEmpty then []
  else ((pqDequeueAll (getFrequencies words)).take k).map Prod.fst

theorem charsLt_asymm : ∀ a b : List Nat,
    charsLt a b = true → charsLt b a = false := by
  intro a
  induction a with
  | nil =>
    intro b hb
    cases b with
    | nil => cases hb
    | cons x xs => rfl
  | cons x xs ih =>
    intro b hb
    cases b with
    | nil => cases hb
    | cons y ys =>
      simp [charsLt] at hb ⊢
      rcases hb with h | ⟨h, h2⟩
      · exact ⟨by omega, fun hyx => absurd hyx.symm (by omega)⟩
      · exact ⟨by omega, fun _ => ih ys h2⟩

theorem charsLt_trans : ∀ a b c : List Nat,
    charsLt a b = true → charsLt b c = true → charsLt a c = true := by
  intro a
  induction a with
  | nil =>
    intro b c hab hbc
    cases b with
    | nil => cases hab
    | cons y ys =>
      cases c with
      | nil => cases hbc
      | cons z zs => rfl
  | cons x xs ih =>
    intro b c hab hbc
    cases b with
    | nil => cases hab
    | cons y ys =>
      cases c with
      | nil => cases hbc
      | cons z zs =>
        simp [charsLt] at hab hbc ⊢
        rcases hab with h1 | ⟨h1, h1t⟩ <;> rcases hbc with h2 | ⟨h2, h2t⟩
        · exact Or.inl (by omega)
        · exact Or.inl (by omega)
        · exact Or.inl (by omega)
        · exact Or.inr ⟨by omega, ih ys zs h1t h2t⟩

theorem charsLt_connex : ∀ a b : List Nat,
    charsLt a b = false → charsLt b a = false → a = b := by
  intro a
  induction a with
  | nil =>
    intro b hab hba
    cases b with
    | nil => rfl
    | cons y ys => cases hab
  | cons x xs ih =>
    intro b hab hba
    cases b with
    | nil => cases hba
    | cons y ys =>
      simp [charsLt] at hab hba
      have hxy : x = y := by omega
      subst hxy
      rw [ih ys (hab.2 rfl) (hba.2 rfl)]

theorem charsLt_false_trans {a b c : List Nat}
    (h1 : charsLt b a = false) (h2 : charsLt c b = false) :
    charsLt c a = false := by
  by_cases hca : charsLt c a = true
  · by_cases hab : charsLt a b = true
    · rw [charsLt_trans c a b hca hab] at h2
      cases h2
    · rw [Bool.not_eq_true] at hab
      rw [charsLt_connex a b hab h1] at hca
      rw [hca] at h2
      cases h2
  · rwa [Bool.not_eq_true] at hca

theorem pqLe_iff (a b : String × Nat) :
    pqLe a b ↔
      (b.2 < a.2 ∨
        (a.2 = b.2 ∧ charsLt (wordCodes b.1) (wordCodes a.1) = false)) := by
  unfold pqLe compareFunc localeCompare
  by_cases h : a.2 = b.2
  · rw [if_neg (not_not_intro h)]
    by_cases hab : charsLt (wordCodes a.1) (wordCodes b.1) = true
    · rw [if_pos hab]
      constructor
      · intro _
        exact Or.inr ⟨h, charsLt_asymm _ _ hab⟩
      · intro _
        decide
    · rw [if_neg hab]
      by_cases hba : charsLt (wordCodes b.1) (wordCodes a.1) = true
      · rw [if_pos hba]
        constructor
        · intro hc
          exact absurd hc (by decide)
        · rintro (hlt | ⟨-, hle⟩)
          · omega
          · rw [hba] at hle
            cases hle
      · rw [if_neg hba]
        rw [Bool.not_eq_true] at hba
        constructor
        · intro _
          exact Or.inr ⟨h, hba⟩
        · intro _
          decide
  · rw [if_pos h]
    constructor
    · intro hle
      left
      omega
    · rintro (hlt | ⟨heq, -⟩)
      · omega
      · exact absurd heq h

instance : IsTotal (String × Nat) pqLe :=
  ⟨fun a b => by
    rw [pqLe_iff, pqLe_iff]
    rcases lt_trichotomy a.2 b.2 with h | h | h
    · exact Or.inr (Or.inl h)
    · by_cases hw : charsLt (wordCodes b.1) (wordCodes a.1) = true
      · exact Or.inr (Or.inr ⟨h.symm, charsLt_asymm _ _ hw⟩)
      · rw [Bool.not_eq_true] at hw
        exact Or.inl (Or.inr ⟨h, hw⟩)
    · exact Or.inl (Or.inl h)⟩

instance : IsTrans (String × Nat) pqLe :=
  ⟨fun a b c hab hbc => by
    rw [pqLe_iff] at hab hbc ⊢
    rcases hab with h1 | ⟨h1, h1w⟩ <;> rcases hbc with h2 | ⟨h2, h2w⟩
    · exact Or.inl (by omega)
    · exact Or.inl (by omega)
    · exact Or.inl (by omega)
    · exact Or.inr ⟨h1.trans h2, charsLt_false_trans h1w h2w⟩⟩

def toLowerCode (c : Nat) : Nat :=
  if 65 ≤ c ∧ c ≤ 90 then c + 32 else c

/-- Tertiary (case-level) comparison of two ASCII-letter code lists whose
case-folded forms are equal: at the first case-only difference the
lowercase letter sorts first. -/
def icuTertiary : List Nat → List Nat → Int
  | [], [] => 0
  | [], _ :: _ => -1
  | _ :: _, [] => 1
  | a :: as, b :: bs =>
    if a = b then icuTertiary as bs
    else if toLowerCode a = toLowerCode b then (if b < a then -1 else 1)
    else 0

/-- `String.prototype.localeCompare` under the default collation of a stock
Node or browser build (ECMA-402 with the root ICU collation), modelled on
words of ASCII letters: letters compare case-insensitively at primary
strength, and a case-only difference orders the lowercase word first, so
`"a" < "A" < "b"`.  On all-lowercase words this coincides with
`localeCompare` above. -/
def icuCompare (x y : String) : Int :=
  if charsLt ((wordCodes x).map toLowerCode) ((wordCodes y).map toLowerCode) then -1
  else if charsLt ((wordCodes y).map toLowerCode) ((wordCodes x).map toLowerCode) then 1
  else icuTertiary (wordCodes x) (wordCodes y)

/-- `compareFunc` with the tie-break `localeCompare` actually performs on
mixed-case ASCII words. -/
def compareFuncIcu (a b : String × Nat) : Int :=
  if a.2 ≠ b.2 then (b.2 : Int) - (a.2 : Int)
  else icuCompare a.1 b.1

def pqLeIcu (a b : String × Nat) : Prop := compareFuncIcu a b ≤ 0

instance : DecidableRel pqLeIcu := fun a b =>
  inferInstanceAs (Decidable (compareFuncIcu a b ≤ 0))

/-- `topKFrequent` with the default-collation tie-break it has on
mixed-case ASCII words. -/
def topKFrequentIcu (words : List String) (k : Nat) : List String :=
  if words.isEmpty then []
  else ((List.insertionSort pqLeIcu (getFrequencies words)).take k).map Prod.fst

/-- A word of lowercase ASCII letters. -/
def lowerAsciiWord (w : String) : Bool :=
  w.data.all (fun c => 97 ≤ c.toNat && c.toNat ≤ 122)

/-- Counterexample to C9 as stated: on the tied mixed-case list
`["a", "A"]` the program's default-collation tie-break returns
`["a", "A"]` (lowercase first), while ascending lexicographic order puts
`"A"` (code 65) before `"a"` (code 97), so the claimed universal ordering
law fails at this word list. -/
theorem topKFrequent_case_tie_counterexample :
    topKFrequentIcu ["a", "A"] 2 = ["a", "A"] ∧
    charsLt (wordCodes "A") (wordCodes "a") = true ∧
    (["a", "A"] : List String) ≠ ["A", "a"] := by
  decide

/-- C9 (amended): on the quoted example `topKFrequent` returns
`["i", "love"]`, and for every list of all-lowercase ASCII words — where
`localeCompare` is codepoint order — the returned list is the first `k`
words of the frequency entries arranged by descending frequency with ties
broken by ascending lexicographic order: the dequeue sequence is a sorted
permutation of the frequency map.  For mixed-case words the default
collation's tie-break differs from lexicographic order. -/
theorem topKFrequent_spec_lower :
    topKFrequent ["i", "love", "leetcode", "i", "love", "coding"] 2 = ["i", "love"] ∧
    ∀ (words : List String) (k : Nat),
      (∀ w ∈ words, lowerAsciiWord w = true) →
      ∃ l : List (String × Nat),
        l.Perm (getFrequencies words) ∧
        l.Sorted pqLe ∧
        topKFrequent words k = (l.take k).map Prod.fst := by
  constructor
  · decide
  · intro words k hlower
    refine ⟨pqDequeueAll (getFrequencies words),
      List.perm_insertionSort pqLe _, List.sorted_insertionSort pqLe _, ?_⟩
    unfold topKFrequent
    by_cases h : words.isEmpty
    · have hw : words = [] := List.isEmpty_iff.mp h
      subst hw
      simp [pqDequeueAll, getFrequencies]
    · simp [h]

/-- Witness for the amended C9 at the quoted all-lowercase word list. -/
theorem topKFrequent_spec_lower_witness :
    (∀ w ∈ (["i", "love", "leetcode", "i", "love", "coding"] : List String),
      lowerAsciiWord w = true) ∧
    (∃ l : List (String × Nat),
      l.Perm (getFrequencies ["i", "love", "leetcode", "i", "love", "coding"]) ∧
      l.Sorted pqLe ∧
      topKFrequent ["i", "love", "leetcode", "i", "love", "coding"] 3 =
        (l.take 3).map Prod.fst) :=
  ⟨by decide,
   topKFrequent_spec_lower.2 ["i", "love", "leetcode", "i", "love", "coding"] 3
     (by decide)⟩

end TopK
